import Mathlib

namespace PIL

/-- Side-channel item shape, from the FileItem interface in
src/frontend/src/components/file-panel.tsx (filename, size, content),
matching the SideChannelItem of spec section 3. -/
structure Item where
  filename : String
  size : Nat
  content : String
deriving DecidableEq

/-- One entry of the useChat messages list as observed by the page component:
an id and whether the role is assistant (src/frontend/src/app/page.tsx). -/
structure ClientMsg where
  id : Nat
  isAssistant : Bool
deriving DecidableEq

/-- Client-side state observed by the Chat component: the accumulated
side-channel data list, the messages list, and the messageFiles record
(src/frontend/src/app/page.tsx lines 25, 32-45). -/
structure ClientState where
  chatData : List Item
  msgs : List ClientMsg
  messageFiles : List (Nat × List Item)
deriving DecidableEq

/-- The last assistant message id, as computed by
messages.filter(m => m.role === 'assistant').slice(-1)[0]
in src/frontend/src/app/page.tsx line 37. -/
def lastAssistant (msgs : List ClientMsg) : Option Nat :=
  ((msgs.filter (fun m => m.isAssistant)).getLast?).map (fun m => m.id)

/-- Lookup in the messageFiles record; the most recent binding for a key wins,
modelling the object spread update in src/frontend/src/app/page.tsx lines 39-42. -/
def mfLookup (i : Nat) : List (Nat × List Item) → Option (List Item)
  | [] => none
  | (j, v) :: rest => if i = j then some v else mfLookup i rest

/-- The effect of src/frontend/src/app/page.tsx lines 32-45: when data is
nonempty and there is at least one message, bind the full accumulated data
list to the id of the last assistant message. -/
def runEffect (s : ClientState) : ClientState :=
  if 0 < s.chatData.length ∧ 0 < s.msgs.length then
    match lastAssistant s.msgs with
    | some i => { s with messageFiles := (i, s.chatData) :: s.messageFiles }
    | none => s
  else s

/-- Events observed by the client: a message opening in the messages list, or
a Data record being applied.  Modelled from the spec: the useChat decoder
(not in the repository sources) appends each Data record's items to the
session data list and adds each opened message to the messages list. -/
inductive ClientEvent where
  | openMsg (id : Nat) (isAssistant : Bool)
  | dataRecord (items : List Item)
deriving DecidableEq

/-- Modelled from the spec: step 4 of the Decoder algorithm (spec section 4.2),
as observed through useChat; Data appends items to the session data list,
and an opened message is appended to the messages list. -/
def applyClientEvent (s : ClientState) : ClientEvent → ClientState
  | .openMsg i a => { s with msgs := s.msgs ++ [⟨i, a⟩] }
  | .dataRecord its => { s with chatData := s.chatData ++ its }

/-- One client step: the event is applied and then the page effect runs
(the effect has data and messages in its dependency array, so it re-runs on
every change of either). -/
def clientStep (s : ClientState) (e : ClientEvent) : ClientState :=
  runEffect (applyClientEvent s e)

def initClient : ClientState := ⟨[], [], []⟩

def runClient (evs : List ClientEvent) : ClientState :=
  evs.foldl clientStep initClient

/-- Invariant: every list bound in messageFiles is a prefix of the
accumulated data list. -/
def MFInv (s : ClientState) : Prop :=
  ∀ p ∈ s.messageFiles, p.2 <+: s.chatData

def itA : Item := ⟨"a.txt", 3, "abc"⟩

def itB : Item := ⟨"b.txt", 1, "b"⟩

/-- The isLoading flag of the chat page: status != "ready"
(src/frontend/src/app/page.tsx line 28). -/
def isLoading (status : String) : Bool := !(status == "ready")

/-- The render condition of the side-channel file panel for one message:
message.role === 'assistant' && messageFiles[message.id] && !isLoading
(src/frontend/src/app/page.tsx line 78; hasFiles is the truthiness of the
messageFiles entry). -/
def showFilePanel (role : String) (hasFiles : Bool) (status : String) : Bool :=
  (role == "assistant") && hasFiles && !(isLoading status)

/-- The disabled attribute of the text input: disabled={isLoading}
(src/frontend/src/app/page.tsx line 153). -/
def inputDisabled (status : String) : Bool := isLoading status

/-- The disabled attribute of the submit button:
disabled={isLoading || !input.trim()} (src/frontend/src/app/page.tsx
line 158); !input.trim() is true exactly when the trimmed input is empty. -/
def submitDisabled (status input : String) : Bool :=
  isLoading status || (input.trim == "")

/-- One stream part written by the documented backend handlers in
src/unnamed/part_002: a text chunk, a custom-data part, an error part, or
the completion part. -/
inductive SPart where
  | text (s : String)
  | data
  | finish
  | error (s : String)
deriving DecidableEq

/-- The single-character wire tag each part is written with, from the
format strings in src/unnamed/part_002 (lines 107-110, 129-144, 167-178). -/
def spartTag : SPart → Char
  | .text _ => '0'
  | .data => '2'
  | .error _ => '3'
  | .finish => 'd'

/-- The success branch of generate_response in the FastAPI example
(src/unnamed/part_002 lines 124-141): one text part per chunk, then one
custom-data part, then the finish part. -/
def generate_response (chunks : List String) : List SPart :=
  chunks.map SPart.text ++ [SPart.data] ++ [SPart.finish]

/-- The success branch of the Express handler (src/unnamed/part_002 lines
156-174): one text part per chunk, then the finish part, then res.end(). -/
def express_chat_success (chunks : List String) : List SPart :=
  chunks.map SPart.text ++ [SPart.finish]

/-- The failure branches (the except clause of generate_response, lines
143-144, and the catch clause of the Express handler, lines 175-178): a
single error part is written after whatever parts were already written,
then the transport closes. -/
def failure_stream (written : List SPart) (e : String) : List SPart :=
  written ++ [SPart.error e]

def countTag (t : Char) (l : List SPart) : Nat :=
  (l.filter (fun p => spartTag p = t)).length

/-- Response headers set by the Express handler in src/unnamed/part_002
lines 159-162. -/
def express_headers : List (String × String) :=
  [("Content-Type", "text/plain; charset=utf-8"),
   ("x-vercel-ai-data-stream", "v1"),
   ("Cache-Control", "no-cache")]

/-- Response headers of the FastAPI chat_endpoint in src/unnamed/part_002
lines 146-151 (media_type sets Content-Type, then one extra header is
assigned), matching the headers documented for POST /api/chat in
src/backend/README.md lines 52-55.  No Cache-Control header is set. -/
def fastapi_headers : List (String × String) :=
  [("Content-Type", "text/plain; charset=utf-8"),
   ("x-vercel-ai-data-stream", "v1")]

def headerLookup (k : String) : List (String × String) → Option String
  | [] => none
  | (k2, v) :: rest => if k = k2 then some v else headerLookup k rest

/-- The termination reason carried by a Finish record (spec sections 4.1
and 6). -/
inductive FinishReason where
  | stop
  | length
  | error
  | tool_calls
deriving DecidableEq

/-- Token usage carried by a Finish record (spec section 6). -/
structure Usage where
  promptTokens : Nat
  completionTokens : Nat
deriving DecidableEq

/-- One abstract wire record (spec section 3, WireRecord): a kind plus its
kind-specific payload. -/
inductive Rec where
  | text (s : String)
  | reasoning (s : String)
  | data (items : List Item)
  | error (s : String)
  | finish (reason : FinishReason) (usage : Usage)
deriving DecidableEq

/-- JSON escaping of one character inside a string payload (quote,
backslash and the control characters the encoder can see). -/
def escChar (c : Char) : List Char :=
  if c = '\"' then ['\\', '\"']
  else if c = '\\' then ['\\', '\\']
  else if c = '\n' then ['\\', 'n']
  else if c = '\t' then ['\\', 't']
  else if c = '\r' then ['\\', 'r']
  else [c]

def esc : List Char → List Char
  | [] => []
  | c :: rest => escChar c ++ esc rest

/-- A JSON string literal: opening quote, escaped body, closing quote
(spec section 6, the <json string> payload form). -/
def jstr (s : String) : List Char := '\"' :: (esc s.data ++ ['\"'])

def natDigitsAux : Nat → Nat → List Char
  | 0, _ => []
  | fuel + 1, n =>
    if n < 10 then [Char.ofNat (48 + n)]
    else natDigitsAux fuel (n / 10) ++ [Char.ofNat (48 + n % 10)]

/-- Decimal digits of a natural number, most significant first. -/
def natDigits (n : Nat) : List Char := natDigitsAux (n + 1) n

def sepTail : List (List Char) → List Char
  | [] => []
  | x :: xs => ',' :: (x ++ sepTail xs)

def sepByComma : List (List Char) → List Char
  | [] => []
  | x :: xs => x ++ sepTail xs

def tokFilename : List Char := "\x7b\"filename\":".data

def tokSize : List Char := ",\"size\":".data

def tokContent : List Char := ",\"content\":".data

def tokRBrace : List Char := "\x7d".data

def tokFinishReason : List Char := "\x7b\"finishReason\":".data

def tokUsage : List Char := ",\"usage\":\x7b\"promptTokens\":".data

def tokCompletion : List Char := ",\"completionTokens\":".data

def tokEnd : List Char := "\x7d\x7d".data

/-- The JSON object for one side-channel item, with the filename, size and
content fields of the sample payloads (spec section 3, SideChannelItem;
src/frontend/src/components/file-panel.tsx FileItem). -/
def encItem (it : Item) : List Char :=
  tokFilename ++ jstr it.filename ++
  tokSize ++ natDigits it.size ++
  tokContent ++ jstr it.content ++ tokRBrace

/-- The JSON array payload of a Data record (spec section 6). -/
def encItems (l : List Item) : List Char :=
  '[' :: (sepByComma (l.map encItem) ++ [']'])

def encReason : FinishReason → List Char
  | .stop => "\"stop\"".data
  | .length => "\"length\"".data
  | .error => "\"error\"".data
  | .tool_calls => "\"tool_calls\"".data

/-- The JSON object payload of a Finish record (spec section 6). -/
def encFinish (r : FinishReason) (u : Usage) : List Char :=
  tokFinishReason ++ encReason r ++
  tokUsage ++ natDigits u.promptTokens ++
  tokCompletion ++ natDigits u.completionTokens ++
  tokEnd

/-- One wire line without its terminating newline: the single-character tag,
a colon, and the JSON payload (spec section 6; tags 0, g, 2, 3, d). -/
def lineBody : Rec → List Char
  | .text s => '0' :: ':' :: jstr s
  | .reasoning s => 'g' :: ':' :: jstr s
  | .data l => '2' :: ':' :: encItems l
  | .error s => '3' :: ':' :: jstr s
  | .finish r u => 'd' :: ':' :: encFinish r u

/-- One full wire record: the line body followed by the newline terminator. -/
def encodeRec (r : Rec) : List Char := lineBody r ++ ['\n']

/-- The Encoder output for a sequence of records: each record is serialized
and flushed in emission order (spec section 4.1). -/
def encodeStream : List Rec → List Char
  | [] => []
  | r :: rs => encodeRec r ++ encodeStream rs

def unesc (c : Char) : Option Char :=
  if c = '\"' then some '\"'
  else if c = '\\' then some '\\'
  else if c = 'n' then some '\n'
  else if c = 't' then some '\t'
  else if c = 'r' then some '\r'
  else none

/-- Modelled from the spec: the Decoder's JSON string scanner, reading the
body of a string literal up to its closing quote (spec section 4.2 step 3);
the client-side Decoder is not part of the repository sources. -/
def parseStrAux : List Char → Option (List Char × List Char)
  | [] => none
  | c :: rest =>
    if c = '\"' then some ([], rest)
    else if c = '\\' then
      match rest with
      | [] => none
      | e :: rest2 =>
        match unesc e with
        | none => none
        | some c2 =>
          match parseStrAux rest2 with
          | none => none
          | some (s, r) => some (c2 :: s, r)
    else
      match parseStrAux rest with
      | none => none
      | some (s, r) => some (c :: s, r)

/-- Modelled from the spec: parse a JSON string literal from the front of
the input, returning its decoded body and the remaining input. -/
def parseJStr (l : List Char) : Option (List Char × List Char) :=
  match l with
  | c :: rest => if c = '\"' then parseStrAux rest else none
  | [] => none

def parseNatAux : List Char → Nat → Nat × List Char
  | [], acc => (acc, [])
  | c :: rest, acc =>
    if c.isDigit then parseNatAux rest (acc * 10 + (c.toNat - 48))
    else (acc, c :: rest)

/-- Modelled from the spec: parse a decimal JSON number from the front of
the input. -/
def parseNat (l : List Char) : Option (Nat × List Char) :=
  match l with
  | c :: rest =>
    if c.isDigit then some (parseNatAux rest (c.toNat - 48)) else none
  | [] => none

/-- Consume an expected literal token from the front of the input. -/
def dropTok : List Char → List Char → Option (List Char)
  | [], l => some l
  | _ :: _, [] => none
  | p :: ps, c :: cs => if c = p then dropTok ps cs else none

/-- Modelled from the spec: parse one side-channel item object of the Data
payload (spec section 4.2 step 3; shape check for the Data tag). -/
def parseItem (l : List Char) : Option (Item × List Char) :=
  (dropTok tokFilename l).bind fun l1 =>
  (parseJStr l1).bind fun p1 =>
  (dropTok tokSize p1.2).bind fun l3 =>
  (parseNat l3).bind fun p2 =>
  (dropTok tokContent p2.2).bind fun l5 =>
  (parseJStr l5).bind fun p3 =>
  (dropTok tokRBrace p3.2).bind fun l7 =>
  some (⟨String.mk p1.1, p2.1, String.mk p3.1⟩, l7)

def parseItemsLoop : Nat → List Char → Option (List Item × List Char)
  | 0, _ => none
  | fuel + 1, l =>
    (parseItem l).bind fun p =>
      match p.2 with
      | [] => none
      | c :: r2 =>
        if c = ',' then
          (parseItemsLoop fuel r2).bind fun q => some (p.1 :: q.1, q.2)
        else if c = ']' then some ([p.1], r2)
        else none

/-- Modelled from the spec: parse the JSON array payload of a Data record;
the payload must decode to a sequence (spec section 4.2 step 3). -/
def parseItems (l : List Char) : Option (List Item × List Char) :=
  match l with
  | [] => none
  | c :: rest =>
    if c = '[' then
      match rest with
      | [] => none
      | c2 :: r2 =>
        if c2 = ']' then some ([], r2)
        else parseItemsLoop rest.length (c2 :: r2)
    else none

/-- Modelled from the spec: parse the finishReason enumeration token. -/
def parseReasonTok (l : List Char) : Option (FinishReason × List Char) :=
  match dropTok "\"stop\"".data l with
  | some r => some (.stop, r)
  | none =>
    match dropTok "\"length\"".data l with
    | some r => some (.length, r)
    | none =>
      match dropTok "\"error\"".data l with
      | some r => some (.error, r)
      | none =>
        match dropTok "\"tool_calls\"".data l with
        | some r => some (.tool_calls, r)
        | none => none

/-- Modelled from the spec: parse the JSON object payload of a Finish
record (spec section 6). -/
def parseFinishPayload (l : List Char) :
    Option ((FinishReason × Usage) × List Char) :=
  (dropTok tokFinishReason l).bind fun l1 =>
  (parseReasonTok l1).bind fun p1 =>
  (dropTok tokUsage p1.2).bind fun l3 =>
  (parseNat l3).bind fun p2 =>
  (dropTok tokCompletion p2.2).bind fun l5 =>
  (parseNat l5).bind fun p3 =>
  (dropTok tokEnd p3.2).bind fun l7 =>
  some ((p1.1, ⟨p2.1, p3.1⟩), l7)

/-- Modelled from the spec: dispatch on the recognized single-character tag
and parse the payload as the type required by that tag, rejecting trailing
garbage (spec section 4.2 step 3). -/
def parsePayload (t : Char) (l : List Char) : Option Rec :=
  if t = '0' then
    (parseJStr l).bind fun p =>
      if p.2 = [] then some (.text (String.mk p.1)) else none
  else if t = 'g' then
    (parseJStr l).bind fun p =>
      if p.2 = [] then some (.reasoning (String.mk p.1)) else none
  else if t = '2' then
    (parseItems l).bind fun p =>
      if p.2 = [] then some (.data p.1) else none
  else if t = '3' then
    (parseJStr l).bind fun p =>
      if p.2 = [] then some (.error (String.mk p.1)) else none
  else if t = 'd' then
    (parseFinishPayload l).bind fun p =>
      if p.2 = [] then some (.finish p.1.1 p.1.2) else none
  else none

/-- Modelled from the spec: parse one extracted line by splitting at the
first colon into tag and rest; a line with no colon or an unrecognized tag
is a protocol error (spec section 4.2 step 2). -/
def parseLine (l : List Char) : Option Rec :=
  match l with
  | t :: c :: rest => if c = ':' then parsePayload t rest else none
  | _ => none

def noDigitHead : List Char → Bool
  | [] => true
  | c :: _ => !c.isDigit

/-- Modelled from the spec: split off the prefix of the buffer up to the
first line terminator, if one exists (spec section 4.2 step 1). -/
def breakLine : List Char → Option (List Char × List Char)
  | [] => none
  | c :: rest =>
    if c = '\n' then some ([], rest)
    else
      match breakLine rest with
      | none => none
      | some (l, r) => some (c :: l, r)

def extractLinesAux : Nat → List Char → List (List Char) × List Char
  | 0, l => ([], l)
  | fuel + 1, l =>
    match breakLine l with
    | none => ([], l)
    | some (line, rest) =>
      let p := extractLinesAux fuel rest
      (line :: p.1, p.2)

/-- Modelled from the spec: repeatedly extract complete lines from the
received bytes; the second component is the residual buffer of
not-yet-terminated bytes (spec section 4.2 step 1). -/
def extractLines (l : List Char) : List (List Char) × List Char :=
  extractLinesAux l.length l

def joinLines : List (List Char) → List Char
  | [] => []
  | l :: ls => l ++ '\n' :: joinLines ls

/-- One typed fragment of a message's parts sequence (spec section 3,
ConversationMessage.parts). -/
inductive Part where
  | text (s : String)
  | reasoning (s : String)
deriving DecidableEq

/-- One UI-visible assistant message being assembled: accumulated plain text
and the ordered typed fragments (spec section 3, ConversationMessage). -/
structure Msg where
  content : String
  parts : List Part
deriving DecidableEq

/-- Terminal and transient session statuses.  The spec lists
pending/streaming/completed/errored (section 3) and requires an additional
incomplete outcome distinct from errored when the transport closes without a
Finish record (sections 4.2 step 5, 7, 8). -/
inductive SessionStatus where
  | pending
  | streaming
  | completed
  | errored
  | incomplete
deriving DecidableEq

/-- Modelled from the spec: the StreamSession owned by the Decoder — current
in-progress message, completed messages, accumulated side-channel items,
status, the surfaced error message, whether a protocol (parse) error was
seen, and the recorded finish reason/usage (spec sections 3, 4.2). -/
structure Session where
  current : Option Msg
  completed : List Msg
  items : List Item
  status : SessionStatus
  errorMsg : Option String
  parseError : Bool
  finishInfo : Option (FinishReason × Usage)
deriving DecidableEq

def newMsg : Msg := ⟨"", []⟩

def addPart (m : Msg) (p : Part) : Msg :=
  match p with
  | .text f => ⟨m.content ++ f, m.parts ++ [.text f]⟩
  | .reasoning f => ⟨m.content, m.parts ++ [.reasoning f]⟩

/-- Modelled from the spec: apply one parsed record to the session
(spec section 4.2 step 4): Text/Reasoning append to the current open
message, creating it if none is open; Data appends to the side-channel
list; Error marks the session errored and surfaces the message; Finish
closes the open message, records reason/usage and completes the session. -/
def applyRec (s : Session) : Rec → Session
  | .text f =>
    ⟨some (addPart (s.current.getD newMsg) (.text f)), s.completed, s.items,
      .streaming, s.errorMsg, s.parseError, s.finishInfo⟩
  | .reasoning f =>
    ⟨some (addPart (s.current.getD newMsg) (.reasoning f)), s.completed,
      s.items, .streaming, s.errorMsg, s.parseError, s.finishInfo⟩
  | .data its =>
    ⟨s.current, s.completed, s.items ++ its, .streaming, s.errorMsg,
      s.parseError, s.finishInfo⟩
  | .error m =>
    ⟨s.current, s.completed, s.items, .errored, some m, s.parseError,
      s.finishInfo⟩
  | .finish fr u =>
    ⟨none,
      s.completed ++ (match s.current with | some m => [m] | none => []),
      s.items, .completed, s.errorMsg, s.parseError, some (fr, u)⟩

/-- Modelled from the spec: apply one extracted line.  Records after Finish
are ignored, no record is applied after the session errored, and a line that
fails to parse is a protocol error that marks the session errored
(spec sections 4.2 steps 2-4, 7). -/
def applyLine (s : Session) (l : List Char) : Session :=
  if s.status = .completed ∨ s.status = .errored then s
  else
    match parseLine l with
    | none => { s with status := .errored, parseError := true }
    | some r => applyRec s r

def initSession : Session := ⟨none, [], [], .pending, none, false, none⟩

/-- Modelled from the spec: decode a full byte stream — extract lines, apply
each in arrival order, and finalize: a session that never saw Finish (and
did not error) is incomplete, distinct from errored
(spec section 4.2 step 5, section 8). -/
def decodeStream (bytes : List Char) : Session :=
  let s := (extractLines bytes).1.foldl applyLine initSession
  if s.status = .completed ∨ s.status = .errored then s
  else { s with status := .incomplete }

def isContent : Rec → Bool
  | .text _ => true
  | .reasoning _ => true
  | .data _ => true
  | .error _ => false
  | .finish _ _ => false

/-- The Text/Reasoning fragments of an emitted record sequence, in emission
order. -/
def fragments : List Rec → List Part
  | [] => []
  | .text f :: rest => .text f :: fragments rest
  | .reasoning f :: rest => .reasoning f :: fragments rest
  | .data _ :: rest => fragments rest
  | .error _ :: rest => fragments rest
  | .finish _ _ :: rest => fragments rest

/-- The concatenation of all Text fragments of an emitted record sequence,
in emission order. -/
def textConcat : List Rec → String
  | [] => ""
  | .text f :: rest => f ++ textConcat rest
  | .reasoning _ :: rest => textConcat rest
  | .data _ :: rest => textConcat rest
  | .error _ :: rest => textConcat rest
  | .finish _ _ :: rest => textConcat rest

/-- The concatenation of all Data items of an emitted record sequence, in
emission order. -/
def dataConcat : List Rec → List Item
  | [] => []
  | .data its :: rest => its ++ dataConcat rest
  | .text _ :: rest => dataConcat rest
  | .reasoning _ :: rest => dataConcat rest
  | .error _ :: rest => dataConcat rest
  | .finish _ _ :: rest => dataConcat rest

def partsText : List Part → String
  | [] => ""
  | .text f :: rest => f ++ partsText rest
  | .reasoning _ :: rest => partsText rest

def addParts (m : Msg) (ps : List Part) : Msg := ps.foldl addPart m

def extendCur (cur : Option Msg) (ps : List Part) : Option Msg :=
  match ps with
  | [] => cur
  | _ :: _ => some (addParts (cur.getD newMsg) ps)

def c6Body : List Rec :=
  [Rec.text "Hel", Rec.reasoning "think", Rec.data [itA], Rec.text "lo"]

/-- The failure box of the chat page renders error.message verbatim when an
error is surfaced (src/frontend/src/app/page.tsx lines 140-146). -/
def renderedFailureMessage : Option String → Option String
  | some msg => some msg
  | none => none

theorem mfLookup_mem {i : Nat} {mf : List (Nat × List Item)} {v : List Item}
    (h : mfLookup i mf = some v) : (i, v) ∈ mf := by
  induction mf with
  | nil => simp [mfLookup] at h
  | cons p rest ih =>
    obtain ⟨j, w⟩ := p
    by_cases hij : i = j
    · subst hij
      simp [mfLookup] at h
      simp [h]
    · simp [mfLookup, hij] at h
      exact List.mem_cons_of_mem _ (ih h)

theorem mfinv_applyEvent {s : ClientState} (h : MFInv s) (e : ClientEvent) :
    MFInv (applyClientEvent s e) := by
  cases e with
  | openMsg i a => exact fun p hp => h p hp
  | dataRecord its => exact fun p hp => (h p hp).trans (List.prefix_append _ _)

theorem chatData_applyEvent (s : ClientState) (e : ClientEvent) :
    s.chatData <+: (applyClientEvent s e).chatData := by
  cases e with
  | openMsg i a => exact List.prefix_refl _
  | dataRecord its => exact List.prefix_append _ _

theorem messageFiles_applyEvent (s : ClientState) (e : ClientEvent) :
    (applyClientEvent s e).messageFiles = s.messageFiles := by
  cases e <;> rfl

theorem mfinv_runEffect {s : ClientState} (h : MFInv s) : MFInv (runEffect s) := by
  unfold runEffect
  split
  · split
    · intro p hp
      rcases List.mem_cons.mp hp with hp1 | hp2
      · subst hp1
        exact List.prefix_refl _
      · exact h p hp2
    · exact h
  · exact h

theorem mfinv_step {s : ClientState} (h : MFInv s) (e : ClientEvent) :
    MFInv (clientStep s e) :=
  mfinv_runEffect (mfinv_applyEvent h e)

theorem mfinv_foldl (evs : List ClientEvent) :
    ∀ s, MFInv s → MFInv (evs.foldl clientStep s) := by
  induction evs with
  | nil => exact fun s h => h
  | cons e rest ih => exact fun s h => ih _ (mfinv_step h e)

theorem mfinv_run (evs : List ClientEvent) : MFInv (runClient evs) :=
  mfinv_foldl evs initClient (by intro p hp; simp [initClient] at hp)

theorem runEffect_cases (s : ClientState) :
    (runEffect s).messageFiles = s.messageFiles ∨
    ∃ j, lastAssistant s.msgs = some j ∧
      (runEffect s).messageFiles = (j, s.chatData) :: s.messageFiles := by
  unfold runEffect
  split
  · split
    · next j hj => exact Or.inr ⟨j, hj, rfl⟩
    · exact Or.inl rfl
  · exact Or.inl rfl

theorem runEffect_attach (d : List Item) (ms : List ClientMsg)
    (mf : List (Nat × List Item)) (j : Nat)
    (h1 : 0 < d.length) (h2 : 0 < ms.length)
    (hj : lastAssistant ms = some j) :
    runEffect ⟨d, ms, mf⟩ = ⟨d, ms, (j, d) :: mf⟩ := by
  unfold runEffect
  rw [if_pos ⟨h1, h2⟩]
  split
  · next j' hj' =>
    rw [hj] at hj'
    cases hj'
    rfl
  · next hj' =>
    rw [hj] at hj'
    cases hj'

theorem runEffect_skip (d : List Item) (ms : List ClientMsg)
    (mf : List (Nat × List Item))
    (hla : lastAssistant ms = none) : runEffect ⟨d, ms, mf⟩ = ⟨d, ms, mf⟩ := by
  unfold runEffect
  split
  · split
    · next j' hj' =>
      rw [hla] at hj'
      cases hj'
    · rfl
  · rfl

theorem applyEvent_dataRecord (s : ClientState) (items : List Item) :
    applyClientEvent s (ClientEvent.dataRecord items)
      = { s with chatData := s.chatData ++ items } := rfl

theorem applyEvent_openMsg (s : ClientState) (i : Nat) (a : Bool) :
    applyClientEvent s (ClientEvent.openMsg i a)
      = { s with msgs := s.msgs ++ [⟨i, a⟩] } := rfl

/-- C1: in a session where Data records are delivered repeatedly, the
side-channel item list bound to an assistant message only ever grows by
appending; no step replaces the previously attached items from the client's
point of view (the old binding is always a prefix of the new one). -/
theorem c1_side_channel_appends (evs : List ClientEvent) (e : ClientEvent)
    (i : Nat) (old new : List Item)
    (hold : mfLookup i (runClient evs).messageFiles = some old)
    (hnew : mfLookup i (clientStep (runClient evs) e).messageFiles = some new) :
    old <+: new := by
  have hinv : MFInv (runClient evs) := mfinv_run evs
  have holdpre : old <+: (runClient evs).chatData :=
    hinv _ (mfLookup_mem hold)
  have hdata : (runClient evs).chatData <+: (applyClientEvent (runClient evs) e).chatData :=
    chatData_applyEvent _ e
  unfold clientStep at hnew
  rcases runEffect_cases (applyClientEvent (runClient evs) e) with heq | ⟨j, hj, heq⟩
  · rw [heq, messageFiles_applyEvent, hold] at hnew
    cases hnew
    exact List.prefix_refl _
  · rw [heq, messageFiles_applyEvent] at hnew
    by_cases hij : i = j
    · subst hij
      simp [mfLookup] at hnew
      subst hnew
      exact holdpre.trans hdata
    · simp [mfLookup, hij] at hnew
      rw [hold] at hnew
      cases hnew
      exact List.prefix_refl _

theorem c1_witness :
    mfLookup 1 (runClient [ClientEvent.openMsg 1 true,
      ClientEvent.dataRecord [itA]]).messageFiles = some [itA] ∧
    mfLookup 1 (clientStep (runClient [ClientEvent.openMsg 1 true,
      ClientEvent.dataRecord [itA]]) (ClientEvent.dataRecord [itB])).messageFiles
        = some [itA, itB] ∧
    [itA] <+: [itA, itB] :=
  ⟨by decide, by decide,
    c1_side_channel_appends [ClientEvent.openMsg 1 true, ClientEvent.dataRecord [itA]]
      (ClientEvent.dataRecord [itB]) 1 [itA] [itA, itB] (by decide) (by decide)⟩

theorem lastAssistant_msgs_ne_nil {msgs : List ClientMsg} {i : Nat}
    (h : lastAssistant msgs = some i) : 0 < msgs.length := by
  cases msgs with
  | nil => simp [lastAssistant] at h
  | cons m rest => simp

/-- C2: a Data record applied while at least one assistant message exists is
associated with the most recently seen assistant message: after the step, the
binding for that message id is the full accumulated data list ending with the
newly carried items. -/
theorem c2_data_to_last_assistant (evs : List ClientEvent) (items : List Item)
    (i : Nat) (hla : lastAssistant (runClient evs).msgs = some i)
    (hne : items ≠ []) :
    mfLookup i (clientStep (runClient evs) (ClientEvent.dataRecord items)).messageFiles
      = some ((runClient evs).chatData ++ items) := by
  have hlen : 0 < ((runClient evs).chatData ++ items).length := by
    rcases items with _ | ⟨x, xs⟩
    · exact absurd rfl hne
    · simp
  have hmsgs : 0 < (runClient evs).msgs.length := lastAssistant_msgs_ne_nil hla
  unfold clientStep
  rw [applyEvent_dataRecord,
    runEffect_attach ((runClient evs).chatData ++ items) (runClient evs).msgs
      (runClient evs).messageFiles i hlen hmsgs hla]
  simp [mfLookup]

theorem c2_witness :
    mfLookup 5 (clientStep (runClient [ClientEvent.openMsg 5 true])
      (ClientEvent.dataRecord [itA])).messageFiles
      = some ((runClient [ClientEvent.openMsg 5 true]).chatData ++ [itA]) :=
  c2_data_to_last_assistant [ClientEvent.openMsg 5 true] [itA] 5
    (by decide) (by decide)

/-- C3: a Data record arriving before any assistant message exists is not
dropped: the carried items are held in the session data list while no binding
changes, and opening the first assistant message attaches the held items to
it retroactively. -/
theorem c3_retroactive_attachment (evs : List ClientEvent) (items : List Item)
    (i : Nat)
    (hnoa : ∀ m ∈ (runClient evs).msgs, m.isAssistant = false)
    (hne : items ≠ []) :
    (clientStep (runClient evs) (ClientEvent.dataRecord items)).messageFiles
        = (runClient evs).messageFiles ∧
    (clientStep (runClient evs) (ClientEvent.dataRecord items)).chatData
        = (runClient evs).chatData ++ items ∧
    mfLookup i (clientStep (clientStep (runClient evs) (ClientEvent.dataRecord items))
        (ClientEvent.openMsg i true)).messageFiles
      = some ((runClient evs).chatData ++ items) := by
  have hfilter : (runClient evs).msgs.filter (fun m => m.isAssistant) = [] := by
    rw [List.filter_eq_nil_iff]
    intro m hm
    simp [hnoa m hm]
  have hla : lastAssistant (runClient evs).msgs = none := by
    simp [lastAssistant, hfilter]
  have hlen : 0 < ((runClient evs).chatData ++ items).length := by
    rcases items with _ | ⟨x, xs⟩
    · exact absurd rfl hne
    · simp
  have hs1 : clientStep (runClient evs) (ClientEvent.dataRecord items)
      = { runClient evs with chatData := (runClient evs).chatData ++ items } := by
    unfold clientStep
    rw [applyEvent_dataRecord,
      runEffect_skip ((runClient evs).chatData ++ items) (runClient evs).msgs
        (runClient evs).messageFiles hla]
  refine ⟨by rw [hs1], by rw [hs1], ?_⟩
  rw [hs1]
  unfold clientStep
  rw [applyEvent_openMsg]
  have hla2 : lastAssistant ((runClient evs).msgs ++ [ClientMsg.mk i true]) = some i := by
    simp [lastAssistant, List.filter_append, hfilter]
  show mfLookup i (runEffect ⟨(runClient evs).chatData ++ items,
    (runClient evs).msgs ++ [ClientMsg.mk i true], (runClient evs).messageFiles⟩).messageFiles
    = some ((runClient evs).chatData ++ items)
  rw [runEffect_attach ((runClient evs).chatData ++ items)
    ((runClient evs).msgs ++ [ClientMsg.mk i true]) (runClient evs).messageFiles i
    hlen (by simp) hla2]
  simp [mfLookup]

theorem c3_witness :
    (clientStep (runClient [ClientEvent.openMsg 0 false])
        (ClientEvent.dataRecord [itA])).messageFiles
        = (runClient [ClientEvent.openMsg 0 false]).messageFiles ∧
    (clientStep (runClient [ClientEvent.openMsg 0 false])
        (ClientEvent.dataRecord [itA])).chatData
        = (runClient [ClientEvent.openMsg 0 false]).chatData ++ [itA] ∧
    mfLookup 1 (clientStep (clientStep (runClient [ClientEvent.openMsg 0 false])
        (ClientEvent.dataRecord [itA])) (ClientEvent.openMsg 1 true)).messageFiles
      = some ((runClient [ClientEvent.openMsg 0 false]).chatData ++ [itA]) :=
  c3_retroactive_attachment [ClientEvent.openMsg 0 false] [itA] 1
    (by decide) (by decide)

/-- C10: whenever the chat status is not "ready" (pending, streaming or
errored), no side-channel file panel is shown for any message, and both the
text input and the submit button are disabled; the submit button is moreover
disabled whenever the trimmed input is empty. -/
theorem c10_loading_disables (status input role : String) (hasFiles : Bool) :
    (status ≠ "ready" →
      showFilePanel role hasFiles status = false ∧
      inputDisabled status = true ∧
      submitDisabled status input = true) ∧
    (input.trim = "" → submitDisabled status input = true) := by
  constructor
  · intro h
    have hb : (status == "ready") = false := by
      simp [h]
    refine ⟨?_, ?_, ?_⟩
    · simp [showFilePanel, isLoading, hb]
    · simp [inputDisabled, isLoading, hb]
    · simp [submitDisabled, isLoading, hb]
  · intro h
    simp [submitDisabled, h]

theorem c10_witness :
    showFilePanel "assistant" true "streaming" = false ∧
    inputDisabled "streaming" = true ∧
    submitDisabled "streaming" "hello" = true :=
  (c10_loading_disables "streaming" "hello" "assistant" true).1 (by decide)

/-- C4: on the success path both documented handlers write exactly one
Finish record (tag d), and it is the last record written before the
transport is closed. -/
theorem c4_single_finish_last (chunks : List String) :
    countTag 'd' (generate_response chunks) = 1 ∧
    (generate_response chunks).getLast? = some SPart.finish ∧
    countTag 'd' (express_chat_success chunks) = 1 ∧
    (express_chat_success chunks).getLast? = some SPart.finish := by
  refine ⟨?_, ?_, ?_, ?_⟩
  · simp [countTag, generate_response, List.filter_append, spartTag,
      List.filter_map]
  · simp [generate_response]
  · simp [countTag, express_chat_success, List.filter_append, spartTag,
      List.filter_map]
  · simp [express_chat_success]

/-- C5: when the upstream generation fails, whether before any output or
after some parts were already written, the handlers write at least one Error
record (tag 3) before closing, and the resulting stream is never empty. -/
theorem c5_error_before_close (written : List SPart) (e : String) :
    1 ≤ countTag '3' (failure_stream written e) ∧
    failure_stream written e ≠ [] ∧
    (failure_stream written e).getLast? = some (SPart.error e) := by
  refine ⟨?_, ?_, ?_⟩
  · simp [countTag, failure_stream, List.filter_append, spartTag]
  · simp [failure_stream]
  · simp [failure_stream]

/-- C8 counterexample: the FastAPI transport response is a response produced
by the Encoder's transport that carries Content-Type and the protocol-version
marker but no Cache-Control header, so not every response carries all three
required headers. -/
theorem c8_counterexample :
    headerLookup "Content-Type" fastapi_headers
      = some "text/plain; charset=utf-8" ∧
    headerLookup "x-vercel-ai-data-stream" fastapi_headers = some "v1" ∧
    headerLookup "Cache-Control" fastapi_headers = none := by
  decide

/-- C8 amended: the Express transport carries all three required headers,
while the FastAPI transport carries Content-Type: text/plain; charset=utf-8
and x-vercel-ai-data-stream: v1 but omits Cache-Control. -/
theorem c8_headers_amended :
    headerLookup "Content-Type" express_headers
      = some "text/plain; charset=utf-8" ∧
    headerLookup "x-vercel-ai-data-stream" express_headers = some "v1" ∧
    headerLookup "Cache-Control" express_headers = some "no-cache" ∧
    headerLookup "Content-Type" fastapi_headers
      = some "text/plain; charset=utf-8" ∧
    headerLookup "x-vercel-ai-data-stream" fastapi_headers = some "v1" ∧
    headerLookup "Cache-Control" fastapi_headers = none := by
  decide

theorem parseStrAux_esc (s rest : List Char) :
    parseStrAux (esc s ++ ('\"' :: rest)) = some (s, rest) := by
  induction s with
  | nil =>
    simp only [esc, List.nil_append]
    rw [parseStrAux.eq_def]
    simp
  | cons c s ih =>
    by_cases h1 : c = '\"'
    · subst h1
      have he : esc ('\"' :: s) = '\\' :: '\"' :: esc s := rfl
      rw [he, List.cons_append, List.cons_append, parseStrAux.eq_def]
      simp [unesc, ih]
    · by_cases h2 : c = '\\'
      · subst h2
        have he : esc ('\\' :: s) = '\\' :: '\\' :: esc s := rfl
        rw [he, List.cons_append, List.cons_append, parseStrAux.eq_def]
        simp [unesc, ih]
      · by_cases h3 : c = '\n'
        · subst h3
          have he : esc ('\n' :: s) = '\\' :: 'n' :: esc s := rfl
          rw [he, List.cons_append, List.cons_append, parseStrAux.eq_def]
          simp [unesc, ih]
        · by_cases h4 : c = '\t'
          · subst h4
            have he : esc ('\t' :: s) = '\\' :: 't' :: esc s := rfl
            rw [he, List.cons_append, List.cons_append, parseStrAux.eq_def]
            simp [unesc, ih]
          · by_cases h5 : c = '\r'
            · subst h5
              have he : esc ('\r' :: s) = '\\' :: 'r' :: esc s := rfl
              rw [he, List.cons_append, List.cons_append, parseStrAux.eq_def]
              simp [unesc, ih]
            · have he : esc (c :: s) = escChar c ++ esc s := rfl
              have he2 : escChar c = [c] := by
                simp [escChar, h1, h2, h3, h4, h5]
              rw [he, he2, List.singleton_append, List.cons_append,
                parseStrAux.eq_def]
              simp [h1, h2, ih]

theorem parseJStr_jstr (s : String) (rest : List Char) :
    parseJStr (jstr s ++ rest) = some (s.data, rest) := by
  show parseJStr ('\"' :: (esc s.data ++ ['\"']) ++ rest) = some (s.data, rest)
  rw [List.cons_append, List.append_assoc]
  simp only [parseJStr, if_pos rfl]
  exact parseStrAux_esc s.data rest

theorem digitChar_isDigit {d : Nat} (h : d < 10) :
    (Char.ofNat (48 + d)).isDigit = true := by
  interval_cases d <;> decide

theorem digitChar_toNat {d : Nat} (h : d < 10) :
    (Char.ofNat (48 + d)).toNat = 48 + d := by
  interval_cases d <;> decide

theorem natDigitsAux_digits :
    ∀ fuel n, n < fuel → ∀ c ∈ natDigitsAux fuel n, c.isDigit = true := by
  intro fuel
  induction fuel with
  | zero => intro n h; omega
  | succ fuel ih =>
    intro n _ c hc
    by_cases h10 : n < 10
    · rw [natDigitsAux, if_pos h10] at hc
      simp at hc
      subst hc
      exact digitChar_isDigit h10
    · rw [natDigitsAux, if_neg h10] at hc
      rcases List.mem_append.mp hc with hc1 | hc2
      · have hlt : n / 10 < fuel := by
          have := Nat.div_lt_self (by omega : 0 < n) (by omega : 1 < 10)
          omega
        exact ih (n / 10) hlt c hc1
      · simp at hc2
        subst hc2
        exact digitChar_isDigit (Nat.mod_lt _ (by omega))

theorem natDigitsAux_ne_nil :
    ∀ fuel n, n < fuel → natDigitsAux fuel n ≠ [] := by
  intro fuel
  induction fuel with
  | zero => intro n h; omega
  | succ fuel _ =>
    intro n _
    by_cases h10 : n < 10
    · rw [natDigitsAux, if_pos h10]
      simp
    · rw [natDigitsAux, if_neg h10]
      simp

theorem natDigitsAux_foldl :
    ∀ fuel n acc, n < fuel →
      (natDigitsAux fuel n).foldl (fun a c => a * 10 + (c.toNat - 48)) acc
        = acc * 10 ^ (natDigitsAux fuel n).length + n := by
  intro fuel
  induction fuel with
  | zero => intro n acc h; omega
  | succ fuel ih =>
    intro n acc _
    by_cases h10 : n < 10
    · rw [natDigitsAux, if_pos h10]
      simp [List.foldl, digitChar_toNat h10]
    · rw [natDigitsAux, if_neg h10]
      have hlt : n / 10 < fuel := by
        have := Nat.div_lt_self (by omega : 0 < n) (by omega : 1 < 10)
        omega
      rw [List.foldl_append, ih (n / 10) acc hlt]
      have hm : n % 10 < 10 := Nat.mod_lt _ (by omega)
      simp [List.foldl, digitChar_toNat hm, List.length_append]
      rw [pow_succ]
      have := Nat.div_add_mod n 10
      ring_nf
      omega

theorem parseNatAux_digits :
    ∀ l rest acc, (∀ c ∈ l, c.isDigit = true) → noDigitHead rest = true →
      parseNatAux (l ++ rest) acc
        = (l.foldl (fun a c => a * 10 + (c.toNat - 48)) acc, rest) := by
  intro l
  induction l with
  | nil =>
    intro rest acc _ hrest
    cases rest with
    | nil => simp [parseNatAux]
    | cons c r =>
      simp [noDigitHead] at hrest
      simp [parseNatAux, hrest]
  | cons c l ih =>
    intro rest acc hl hrest
    have hc : c.isDigit = true := hl c (by simp)
    rw [List.cons_append, parseNatAux, if_pos hc, List.foldl]
    exact ih rest _ (fun x hx => hl x (by simp [hx])) hrest

theorem parseNat_natDigits (n : Nat) (rest : List Char)
    (h : noDigitHead rest = true) :
    parseNat (natDigits n ++ rest) = some (n, rest) := by
  have hlt : n < n + 1 := Nat.lt_succ_self n
  obtain ⟨d, ds, hds⟩ : ∃ d ds, natDigitsAux (n + 1) n = d :: ds := by
    cases hnd : natDigitsAux (n + 1) n with
    | nil => exact absurd hnd (natDigitsAux_ne_nil _ n hlt)
    | cons d ds => exact ⟨d, ds, rfl⟩
  have hall := natDigitsAux_digits (n + 1) n hlt
  rw [hds] at hall
  have hd : d.isDigit = true := hall d (by simp)
  have hfold := natDigitsAux_foldl (n + 1) n 0 hlt
  rw [hds] at hfold
  simp [List.foldl] at hfold
  show parseNat (natDigitsAux (n + 1) n ++ rest) = some (n, rest)
  rw [hds, List.cons_append, parseNat, if_pos hd,
    parseNatAux_digits ds rest _ (fun x hx => hall x (by simp [hx])) h]
  rw [hfold]

theorem dropTok_self (pat rest : List Char) :
    dropTok pat (pat ++ rest) = some rest := by
  induction pat with
  | nil => simp [dropTok]
  | cons p ps ih => simp [dropTok, ih]

theorem noDigitHead_cons (c : Char) (l : List Char) (h : c.isDigit = false) :
    noDigitHead (c :: l) = true := by
  simp [noDigitHead, h]

theorem parseNat_tokContent (n : Nat) (l : List Char) :
    parseNat (natDigits n ++ (tokContent ++ l)) = some (n, tokContent ++ l) := by
  have h : tokContent = ',' :: "\"content\":".data := rfl
  rw [h, List.cons_append]
  exact parseNat_natDigits n _ (noDigitHead_cons _ _ (by decide))

theorem parseNat_tokCompletion (n : Nat) (l : List Char) :
    parseNat (natDigits n ++ (tokCompletion ++ l))
      = some (n, tokCompletion ++ l) := by
  have h : tokCompletion = ',' :: "\"completionTokens\":".data := rfl
  rw [h, List.cons_append]
  exact parseNat_natDigits n _ (noDigitHead_cons _ _ (by decide))

theorem parseNat_tokEnd (n : Nat) (l : List Char) :
    parseNat (natDigits n ++ (tokEnd ++ l)) = some (n, tokEnd ++ l) := by
  have h : tokEnd = '\x7d' :: "\x7d".data := rfl
  rw [h, List.cons_append]
  exact parseNat_natDigits n _ (noDigitHead_cons _ _ (by decide))

theorem parseItem_encItem (it : Item) (rest : List Char) :
    parseItem (encItem it ++ rest) = some (it, rest) := by
  obtain ⟨fn, sz, ct⟩ := it
  simp only [encItem, List.append_assoc]
  simp only [parseItem, dropTok_self, Option.some_bind, parseJStr_jstr,
    parseNat_tokContent]

theorem encItem_cons (it : Item) : ∃ tl, encItem it = '\x7b' :: tl :=
  ⟨_, rfl⟩

theorem encItem_length_pos (it : Item) : 0 < (encItem it).length := by
  obtain ⟨tl, htl⟩ := encItem_cons it
  rw [htl]
  simp

theorem sepTail_length (more : List Item) :
    more.length ≤ (sepTail (more.map encItem)).length := by
  induction more with
  | nil => simp [sepTail]
  | cons it rest ih =>
    simp only [List.map_cons, sepTail, List.length_cons, List.length_append]
    omega

theorem parseItemsLoop_inv :
    ∀ (more : List Item) (it : Item) (fuel : Nat), more.length ≤ fuel →
      ∀ rest, parseItemsLoop (fuel + 1)
          ((encItem it ++ sepTail (more.map encItem)) ++ (']' :: rest))
        = some (it :: more, rest) := by
  intro more
  induction more with
  | nil =>
    intro it fuel _ rest
    simp only [List.map_nil, sepTail, List.append_nil]
    simp only [parseItemsLoop, parseItem_encItem, Option.some_bind]
    simp
  | cons it2 more ih =>
    intro it fuel hfuel rest
    cases fuel with
    | zero => simp at hfuel
    | succ fuel =>
      simp only [List.map_cons, sepTail]
      rw [show (encItem it ++ (',' :: (encItem it2 ++ sepTail (more.map encItem))))
            ++ (']' :: rest)
          = encItem it ++ (',' ::
            ((encItem it2 ++ sepTail (more.map encItem)) ++ (']' :: rest))) by
        simp [List.append_assoc]]
      rw [parseItemsLoop.eq_def]
      simp only [parseItem_encItem, Option.some_bind]
      have hih := ih it2 fuel (by simpa using hfuel) rest
      rw [List.append_assoc] at hih
      simp [hih]

theorem parseItems_head (c2 : Char) (r2 : List Char) (h : ¬ c2 = ']') :
    parseItems ('[' :: c2 :: r2) = parseItemsLoop (c2 :: r2).length (c2 :: r2) := by
  simp only [parseItems]
  simp [h]

theorem parseItems_encItems (its : List Item) (rest : List Char) :
    parseItems (encItems its ++ rest) = some (its, rest) := by
  cases its with
  | nil => rfl
  | cons it more =>
    have hshape : encItems (it :: more) ++ rest
        = '[' :: ((encItem it ++ sepTail (more.map encItem)) ++ (']' :: rest)) := by
      simp only [encItems, sepByComma, List.map_cons]
      simp [List.append_assoc]
    rw [hshape]
    obtain ⟨tl, htl⟩ := encItem_cons it
    have hexp : (encItem it ++ sepTail (more.map encItem)) ++ (']' :: rest)
        = '\x7b' :: ((tl ++ sepTail (more.map encItem)) ++ (']' :: rest)) := by
      rw [htl]
      simp [List.append_assoc]
    rw [hexp, parseItems_head '\x7b' _ (by decide), ← hexp]
    have hlen : ((encItem it ++ sepTail (more.map encItem)) ++ (']' :: rest)).length
        = ((encItem it).length + (sepTail (more.map encItem)).length
            + rest.length) + 1 := by
      simp [List.length_append]
      omega
    rw [hlen]
    exact parseItemsLoop_inv more it _
      (by have h1 := encItem_length_pos it
          have h2 := sepTail_length more
          omega) rest

theorem parseReasonTok_enc (r : FinishReason) (rest : List Char) :
    parseReasonTok (encReason r ++ rest) = some (r, rest) := by
  cases r
  · show parseReasonTok ("\"stop\"".data ++ rest) = some (.stop, rest)
    simp only [parseReasonTok, dropTok_self]
  · show parseReasonTok ("\"length\"".data ++ rest) = some (.length, rest)
    have h1 : dropTok "\"stop\"".data ("\"length\"".data ++ rest) = none := rfl
    simp only [parseReasonTok, h1, dropTok_self]
  · show parseReasonTok ("\"error\"".data ++ rest) = some (.error, rest)
    have h1 : dropTok "\"stop\"".data ("\"error\"".data ++ rest) = none := rfl
    have h2 : dropTok "\"length\"".data ("\"error\"".data ++ rest) = none := rfl
    simp only [parseReasonTok, h1, h2, dropTok_self]
  · show parseReasonTok ("\"tool_calls\"".data ++ rest) = some (.tool_calls, rest)
    have h1 : dropTok "\"stop\"".data ("\"tool_calls\"".data ++ rest) = none := rfl
    have h2 : dropTok "\"length\"".data ("\"tool_calls\"".data ++ rest) = none := rfl
    have h3 : dropTok "\"error\"".data ("\"tool_calls\"".data ++ rest) = none := rfl
    simp only [parseReasonTok, h1, h2, h3, dropTok_self]

theorem parseFinishPayload_encFinish (r : FinishReason) (u : Usage)
    (rest : List Char) :
    parseFinishPayload (encFinish r u ++ rest) = some ((r, u), rest) := by
  obtain ⟨pt, ct⟩ := u
  simp only [encFinish, List.append_assoc]
  simp only [parseFinishPayload, dropTok_self, Option.some_bind,
    parseReasonTok_enc, parseNat_tokCompletion, parseNat_tokEnd]

theorem parseJStr_whole (s : String) : parseJStr (jstr s) = some (s.data, []) := by
  have h := parseJStr_jstr s []
  rwa [List.append_nil] at h

theorem parseItems_whole (its : List Item) :
    parseItems (encItems its) = some (its, []) := by
  have h := parseItems_encItems its []
  rwa [List.append_nil] at h

theorem parseFinishPayload_whole (r : FinishReason) (u : Usage) :
    parseFinishPayload (encFinish r u) = some ((r, u), []) := by
  have h := parseFinishPayload_encFinish r u []
  rwa [List.append_nil] at h

theorem parseLine_lineBody (r : Rec) : parseLine (lineBody r) = some r := by
  cases r with
  | text s =>
    show parseLine ('0' :: ':' :: jstr s) = some (.text s)
    simp [parseLine, parsePayload, parseJStr_whole]
  | reasoning s =>
    show parseLine ('g' :: ':' :: jstr s) = some (.reasoning s)
    simp [parseLine, parsePayload, parseJStr_whole]
  | data its =>
    show parseLine ('2' :: ':' :: encItems its) = some (.data its)
    simp [parseLine, parsePayload, parseItems_whole]
  | error s =>
    show parseLine ('3' :: ':' :: jstr s) = some (.error s)
    simp [parseLine, parsePayload, parseJStr_whole]
  | finish fr u =>
    show parseLine ('d' :: ':' :: encFinish fr u) = some (.finish fr u)
    simp [parseLine, parsePayload, parseFinishPayload_whole]

theorem esc_no_nl (s : List Char) : '\n' ∉ esc s := by
  induction s with
  | nil => simp [esc]
  | cons c s ih =>
    simp only [esc, List.mem_append]
    rintro (h | h)
    · unfold escChar at h
      split at h
      · simp at h
      · split at h
        · simp at h
        · split at h
          · simp at h
          · split at h
            · simp at h
            · split at h
              · simp at h
              · next h1 h2 h3 h4 h5 =>
                simp at h
                exact h3 h.symm
    · exact ih h

theorem jstr_no_nl (s : String) : '\n' ∉ jstr s := by
  simp only [jstr, List.mem_cons, List.mem_append]
  rintro (h | h | h)
  · simp at h
  · exact esc_no_nl _ h
  · simp at h

theorem isDigit_ne_nl {c : Char} (h : c.isDigit = true) : ¬ c = '\n' := by
  intro hc
  subst hc
  simp [Char.isDigit] at h

theorem natDigits_no_nl (n : Nat) : '\n' ∉ natDigits n := by
  intro h
  exact isDigit_ne_nl (natDigitsAux_digits (n + 1) n (Nat.lt_succ_self n) _ h) rfl

theorem encItem_no_nl (it : Item) : '\n' ∉ encItem it := by
  simp only [encItem, List.mem_append]
  rintro ((((((h | h) | h) | h) | h) | h) | h)
  · exact absurd h (by decide)
  · exact jstr_no_nl _ h
  · exact absurd h (by decide)
  · exact natDigits_no_nl _ h
  · exact absurd h (by decide)
  · exact jstr_no_nl _ h
  · exact absurd h (by decide)

theorem sepTail_no_nl (its : List Item) : '\n' ∉ sepTail (its.map encItem) := by
  induction its with
  | nil => simp [sepTail]
  | cons it rest ih =>
    simp only [List.map_cons, sepTail, List.mem_cons, List.mem_append]
    rintro (h | h | h)
    · simp at h
    · exact encItem_no_nl it h
    · exact ih h

theorem encItems_no_nl (its : List Item) : '\n' ∉ encItems its := by
  cases its with
  | nil => decide
  | cons it rest =>
    simp only [encItems, sepByComma, List.map_cons, List.mem_cons,
      List.mem_append]
    rintro (h | ((h | h) | h))
    · simp at h
    · exact encItem_no_nl it h
    · exact sepTail_no_nl rest h
    · simp at h

theorem encReason_no_nl (r : FinishReason) : '\n' ∉ encReason r := by
  cases r <;> decide

theorem encFinish_no_nl (r : FinishReason) (u : Usage) :
    '\n' ∉ encFinish r u := by
  simp only [encFinish, List.mem_append]
  rintro ((((((h | h) | h) | h) | h) | h) | h)
  · revert h; decide
  · exact encReason_no_nl r h
  · revert h; decide
  · exact natDigits_no_nl _ h
  · revert h; decide
  · exact natDigits_no_nl _ h
  · revert h; decide

theorem lineBody_no_nl (r : Rec) : '\n' ∉ lineBody r := by
  cases r with
  | text s =>
    simp only [lineBody, List.mem_cons]
    rintro (h | h | h)
    · simp at h
    · simp at h
    · exact jstr_no_nl _ h
  | reasoning s =>
    simp only [lineBody, List.mem_cons]
    rintro (h | h | h)
    · simp at h
    · simp at h
    · exact jstr_no_nl _ h
  | data its =>
    simp only [lineBody, List.mem_cons]
    rintro (h | h | h)
    · simp at h
    · simp at h
    · exact encItems_no_nl _ h
  | error s =>
    simp only [lineBody, List.mem_cons]
    rintro (h | h | h)
    · simp at h
    · simp at h
    · exact jstr_no_nl _ h
  | finish fr u =>
    simp only [lineBody, List.mem_cons]
    rintro (h | h | h)
    · simp at h
    · simp at h
    · exact encFinish_no_nl _ _ h

theorem breakLine_append (line rest : List Char) (h : '\n' ∉ line) :
    breakLine (line ++ '\n' :: rest) = some (line, rest) := by
  induction line with
  | nil => simp [breakLine]
  | cons c l ih =>
    have hc : ¬ c = '\n' := by
      intro hc
      exact h (by simp [hc])
    have hl : '\n' ∉ l := fun hm => h (by simp [hm])
    simp [breakLine, hc, ih hl]

theorem joinLines_length (ls : List (List Char)) :
    ls.length ≤ (joinLines ls).length := by
  induction ls with
  | nil => simp [joinLines]
  | cons l rest ih =>
    simp only [joinLines, List.length_cons, List.length_append]
    omega

theorem extractLinesAux_join :
    ∀ (ls : List (List Char)) (fuel : Nat), ls.length ≤ fuel →
      (∀ l ∈ ls, '\n' ∉ l) →
      extractLinesAux fuel (joinLines ls) = (ls, []) := by
  intro ls
  induction ls with
  | nil =>
    intro fuel _ _
    cases fuel with
    | zero => rfl
    | succ fuel => simp [joinLines, extractLinesAux, breakLine]
  | cons l rest ih =>
    intro fuel hfuel hnl
    cases fuel with
    | zero => simp at hfuel
    | succ fuel =>
      simp only [joinLines, extractLinesAux,
        breakLine_append l (joinLines rest) (hnl l (by simp))]
      rw [ih fuel (by simpa using hfuel) (fun x hx => hnl x (by simp [hx]))]

theorem extractLines_join (ls : List (List Char)) (h : ∀ l ∈ ls, '\n' ∉ l) :
    extractLines (joinLines ls) = (ls, []) :=
  extractLinesAux_join ls _ (joinLines_length ls) h

theorem encodeStream_eq_joinLines (rs : List Rec) :
    encodeStream rs = joinLines (rs.map lineBody) := by
  induction rs with
  | nil => rfl
  | cons r rest ih =>
    simp only [encodeStream, encodeRec, List.map_cons, joinLines, ih]
    simp [List.append_assoc]

theorem extractLines_encodeStream (rs : List Rec) :
    extractLines (encodeStream rs) = (rs.map lineBody, []) := by
  rw [encodeStream_eq_joinLines]
  exact extractLines_join _ (by
    intro l hl
    obtain ⟨r, _, hr⟩ := List.mem_map.mp hl
    rw [← hr]
    exact lineBody_no_nl r)

theorem addParts_spec (ps : List Part) :
    ∀ m : Msg, addParts m ps = ⟨m.content ++ partsText ps, m.parts ++ ps⟩ := by
  induction ps with
  | nil =>
    intro m
    simp [addParts, partsText]
  | cons p ps ih =>
    intro m
    cases p with
    | text f =>
      show addParts (addPart m (.text f)) ps = _
      rw [ih]
      simp [addPart, partsText, String.append_assoc, List.append_assoc]
    | reasoning f =>
      show addParts (addPart m (.reasoning f)) ps = _
      rw [ih]
      simp [addPart, partsText, List.append_assoc]

theorem extendCur_cons (cur : Option Msg) (p : Part) (ps : List Part) :
    extendCur (some (addPart (cur.getD newMsg) p)) ps = extendCur cur (p :: ps) := by
  cases ps with
  | nil => simp [extendCur, addParts]
  | cons q qs => simp [extendCur, addParts]

theorem textConcat_eq_partsText (rs : List Rec) :
    partsText (fragments rs) = textConcat rs := by
  induction rs with
  | nil => rfl
  | cons r rs ih =>
    cases r <;> simp [fragments, textConcat, partsText, ih]

theorem foldl_applyRec_content (rs : List Rec) :
    ∀ s : Session, (∀ r ∈ rs, isContent r = true) →
      (s.status = .pending ∨ s.status = .streaming) →
      rs.foldl applyRec s =
        ⟨extendCur s.current (fragments rs), s.completed,
         s.items ++ dataConcat rs,
         (if rs = [] then s.status else .streaming),
         s.errorMsg, s.parseError, s.finishInfo⟩ := by
  induction rs with
  | nil =>
    intro s _ _
    simp [extendCur, fragments, dataConcat]
  | cons r rs ih =>
    intro s hc hst
    have hc' : ∀ x ∈ rs, isContent x = true := fun x hx => hc x (by simp [hx])
    cases r with
    | text f =>
      rw [List.foldl_cons,
        show applyRec s (Rec.text f)
          = ⟨some (addPart (s.current.getD newMsg) (.text f)), s.completed,
             s.items, .streaming, s.errorMsg, s.parseError, s.finishInfo⟩
          from rfl,
        ih _ hc' (Or.inr rfl)]
      simp [fragments, extendCur_cons, dataConcat, ite_self]
    | reasoning f =>
      rw [List.foldl_cons,
        show applyRec s (Rec.reasoning f)
          = ⟨some (addPart (s.current.getD newMsg) (.reasoning f)), s.completed,
             s.items, .streaming, s.errorMsg, s.parseError, s.finishInfo⟩
          from rfl,
        ih _ hc' (Or.inr rfl)]
      simp [fragments, extendCur_cons, dataConcat, ite_self]
    | data its =>
      rw [List.foldl_cons,
        show applyRec s (Rec.data its)
          = ⟨s.current, s.completed, s.items ++ its, .streaming, s.errorMsg,
             s.parseError, s.finishInfo⟩
          from rfl,
        ih _ hc' (Or.inr rfl)]
      simp [fragments, dataConcat, ite_self, List.append_assoc]
    | error m =>
      have := hc _ (by simp : Rec.error m ∈ Rec.error m :: rs)
      simp [isContent] at this
    | finish fr u =>
      have := hc _ (by simp : Rec.finish fr u ∈ Rec.finish fr u :: rs)
      simp [isContent] at this

theorem applyLine_lineBody (s : Session) (r : Rec)
    (h : ¬(s.status = .completed ∨ s.status = .errored)) :
    applyLine s (lineBody r) = applyRec s r := by
  simp [applyLine, h, parseLine_lineBody]

theorem foldl_applyLine_content (rs : List Rec) :
    ∀ s : Session, (∀ r ∈ rs, isContent r = true) →
      (s.status = .pending ∨ s.status = .streaming) →
      (rs.map lineBody).foldl applyLine s = rs.foldl applyRec s := by
  induction rs with
  | nil => intro s _ _; rfl
  | cons r rs ih =>
    intro s hc hst
    have hns : ¬(s.status = .completed ∨ s.status = .errored) := by
      rcases hst with h | h <;> simp [h]
    rw [List.map_cons, List.foldl_cons, List.foldl_cons,
      applyLine_lineBody s r hns]
    have hc' : ∀ x ∈ rs, isContent x = true := fun x hx => hc x (by simp [hx])
    have hst' : (applyRec s r).status = .pending ∨ (applyRec s r).status = .streaming := by
      cases r with
      | text f => exact Or.inr rfl
      | reasoning f => exact Or.inr rfl
      | data its => exact Or.inr rfl
      | error m =>
        have := hc _ (by simp : Rec.error m ∈ Rec.error m :: rs)
        simp [isContent] at this
      | finish fr u =>
        have := hc _ (by simp : Rec.finish fr u ∈ Rec.finish fr u :: rs)
        simp [isContent] at this
    exact ih _ hc' hst'

/-- C6: for every valid emitted sequence — content records (Text, Reasoning,
Data) followed by one Finish — decoding the concatenated wire bytes yields a
completed session whose single assembled ConversationMessage has content
equal to the concatenation of all Text fragments and a parts sequence equal
to the interleaved Text/Reasoning fragments in emission order (and the
side-channel items and usage are reproduced in order as well); when no
fragment was emitted no message is created. -/
theorem c6_roundtrip (body : List Rec) (fr : FinishReason) (u : Usage)
    (hb : ∀ r ∈ body, isContent r = true) :
    (decodeStream (encodeStream (body ++ [Rec.finish fr u]))).status
        = SessionStatus.completed ∧
    (decodeStream (encodeStream (body ++ [Rec.finish fr u]))).completed
        = (if fragments body = [] then []
           else [Msg.mk (textConcat body) (fragments body)]) ∧
    (decodeStream (encodeStream (body ++ [Rec.finish fr u]))).items
        = dataConcat body ∧
    (decodeStream (encodeStream (body ++ [Rec.finish fr u]))).finishInfo
        = some (fr, u) := by
  have hlines :
      (extractLines (encodeStream (body ++ [Rec.finish fr u]))).1
        = (body ++ [Rec.finish fr u]).map lineBody := by
    rw [extractLines_encodeStream]
  have hfold1 : (body.map lineBody).foldl applyLine initSession
      = body.foldl applyRec initSession :=
    foldl_applyLine_content body initSession hb (Or.inl rfl)
  have hchar := foldl_applyRec_content body initSession hb (Or.inl rfl)
  have hs1st : (body.foldl applyRec initSession).status = .pending ∨
      (body.foldl applyRec initSession).status = .streaming := by
    rw [hchar]
    by_cases hbn : body = []
    · simp [hbn, initSession]
    · simp [hbn]
  have hns : ¬((body.foldl applyRec initSession).status = .completed ∨
      (body.foldl applyRec initSession).status = .errored) := by
    rcases hs1st with h | h <;> simp [h]
  have hfin : decodeStream (encodeStream (body ++ [Rec.finish fr u]))
      = applyRec (body.foldl applyRec initSession) (Rec.finish fr u) := by
    show (if ((extractLines (encodeStream (body ++ [Rec.finish fr u]))).1.foldl
          applyLine initSession).status = .completed ∨
        ((extractLines (encodeStream (body ++ [Rec.finish fr u]))).1.foldl
          applyLine initSession).status = .errored
      then (extractLines (encodeStream (body ++ [Rec.finish fr u]))).1.foldl
          applyLine initSession
      else _) = _
    rw [hlines, List.map_append, List.foldl_append, hfold1]
    simp only [List.map_cons, List.map_nil, List.foldl_cons, List.foldl_nil]
    rw [applyLine_lineBody _ _ hns]
    have hcompl : (applyRec (body.foldl applyRec initSession)
        (Rec.finish fr u)).status = .completed := rfl
    rw [if_pos (Or.inl hcompl)]
  rw [hfin, hchar]
  refine ⟨rfl, ?_, by simp [initSession, applyRec], rfl⟩
  show ([] : List Msg) ++
      (match extendCur (initSession.current) (fragments body) with
        | some m => [m] | none => []) = _
  by_cases hfr : fragments body = []
  · simp [hfr, extendCur, initSession]
  · cases hps : fragments body with
    | nil => exact absurd hps hfr
    | cons p ps =>
      simp only [initSession, extendCur]
      rw [addParts_spec]
      simp [hfr]
      rw [← hps, textConcat_eq_partsText]
      constructor
      · rfl
      · rfl

theorem c6_witness :
    (∀ r ∈ c6Body, isContent r = true) ∧
    ((decodeStream (encodeStream (c6Body
        ++ [Rec.finish FinishReason.stop ⟨5, 2⟩]))).status
      = SessionStatus.completed ∧
    (decodeStream (encodeStream (c6Body
        ++ [Rec.finish FinishReason.stop ⟨5, 2⟩]))).completed
      = (if fragments c6Body = [] then []
         else [Msg.mk (textConcat c6Body) (fragments c6Body)]) ∧
    (decodeStream (encodeStream (c6Body
        ++ [Rec.finish FinishReason.stop ⟨5, 2⟩]))).items = dataConcat c6Body ∧
    (decodeStream (encodeStream (c6Body
        ++ [Rec.finish FinishReason.stop ⟨5, 2⟩]))).finishInfo
      = some (FinishReason.stop, ⟨5, 2⟩)) ∧
    (if fragments c6Body = [] then []
      else [Msg.mk (textConcat c6Body) (fragments c6Body)])
      = [Msg.mk "Hello" [Part.text "Hel", Part.reasoning "think", Part.text "lo"]] :=
  ⟨by decide, c6_roundtrip c6Body FinishReason.stop ⟨5, 2⟩ (by decide), by decide⟩

/-- C7 counterexample: the reasoning line with tag g is a well-formed wire
line (the Decoder parses it as a Reasoning record, matching the reasoning
tag of spec section 6), yet g is not among the four tag characters the
claim enumerates, so the claimed closed set {0, 2, 3, d} is incomplete. -/
theorem c7_counterexample :
    parseLine ('g' :: ':' :: jstr "hi") = some (Rec.reasoning "hi") ∧
    ('g' ∉ ['0', '2', '3', 'd']) := by
  exact ⟨by decide, by decide⟩

/-- C7 (amended): a wire line is well-formed — parsed by the Decoder —
exactly when it is a single tag character followed by a colon and a payload
of the shape required by that tag, with the tag drawn from the closed set
{0 text, g reasoning, 2 data, 3 error, d finish}; and a malformed line is a
protocol error: applying it marks the session errored with the parse-error
flag set, rather than being silently dropped. -/
theorem c7_wellformed_iff (l : List Char) (s : Session) :
    ((parseLine l).isSome ↔
      ∃ t rest, l = t :: ':' :: rest ∧ t ∈ ['0', 'g', '2', '3', 'd'] ∧
        (parsePayload t rest).isSome) ∧
    ((s.status = .pending ∨ s.status = .streaming) → parseLine l = none →
      (applyLine s l).status = SessionStatus.errored ∧
      (applyLine s l).parseError = true) := by
  constructor
  · constructor
    · intro h
      match l with
      | [] => simp [parseLine] at h
      | [t] => simp [parseLine] at h
      | t :: c :: rest =>
        by_cases hc : c = ':'
        · subst hc
          refine ⟨t, rest, rfl, ?_, ?_⟩
          · by_contra htag
            simp at htag
            obtain ⟨h0, hg, h2, h3, hd⟩ := htag
            simp [parseLine, parsePayload, h0, hg, h2, h3, hd] at h
          · simpa [parseLine] using h
        · simp [parseLine, hc] at h
    · rintro ⟨t, rest, rfl, _, hps⟩
      simpa [parseLine] using hps
  · intro hst hnone
    have hns : ¬(s.status = .completed ∨ s.status = .errored) := by
      rcases hst with h | h <;> simp [h]
    refine ⟨?_, ?_⟩ <;> simp [applyLine, hns, hnone]

theorem c7_witness :
    (applyLine initSession ("9:bogus".data)).status = SessionStatus.errored ∧
    (applyLine initSession ("9:bogus".data)).parseError = true :=
  (c7_wellformed_iff ("9:bogus".data) initSession).2 (Or.inl rfl) (by decide)

/-- C9: receiving an explicit Error record marks the session errored, and
the carried message is surfaced verbatim: the session's error message is
exactly the payload string, and the page's failure box renders exactly that
message. -/
theorem c9_error_record (s : Session) (m : String)
    (hst : s.status = .pending ∨ s.status = .streaming) :
    (applyLine s (lineBody (Rec.error m))).status = SessionStatus.errored ∧
    (applyLine s (lineBody (Rec.error m))).errorMsg = some m ∧
    renderedFailureMessage (applyLine s (lineBody (Rec.error m))).errorMsg
      = some m := by
  have hns : ¬(s.status = .completed ∨ s.status = .errored) := by
    rcases hst with h | h <;> simp [h]
  rw [applyLine_lineBody s _ hns]
  exact ⟨rfl, rfl, rfl⟩

theorem c9_witness :
    (applyLine initSession (lineBody (Rec.error "boom"))).status
      = SessionStatus.errored ∧
    (applyLine initSession (lineBody (Rec.error "boom"))).errorMsg
      = some "boom" ∧
    renderedFailureMessage
        (applyLine initSession (lineBody (Rec.error "boom"))).errorMsg
      = some "boom" :=
  c9_error_record initSession "boom" (Or.inl rfl)

end PIL

